import Mathlib

/-!
Verification of the URL-template detection and analysis-scheduling core of
the autonomous UX analyst agent.

The definitions below are shallow embeddings of the Python source:
`core/template_detector.py`, `core/functional_analyzer.py`,
`core/sitemap_crawler.py`, and the scheduler phase of `agent.py`.
URLs enter the model already decomposed into their `urlparse` components
(the stdlib parser is an external collaborator); awaited browser and LLM
calls are modelled as explicit inputs (`Except`-valued captures, a
function from attempt number to per-attempt LLM result).
-/

namespace UXA

/-! ### Character-list helpers (models of Python `str` operations) -/

/-- Model of Python `s.split(sep)` for a one-character separator, on the
character list: splits at every occurrence of `c`, keeping empty pieces,
exactly as `str.split` does (`"".split` gives one empty piece). -/
def splitChar (c : Char) : List Char → List (List Char)
  | [] => [[]]
  | x :: xs =>
    if x = c then [] :: splitChar c xs
    else
      match splitChar c xs with
      | [] => [[x]]
      | h :: t => (x :: h) :: t

/-- Model of Python `sep.join(parts)`. -/
def joinWith (sep : String) : List String → String
  | [] => ""
  | x :: xs =>
    match xs with
    | [] => x
    | _ :: _ => x ++ sep ++ joinWith sep xs

/-- Model of Python `s.count(c)` for a single character. -/
def countChar (c : Char) (s : String) : Nat := s.data.count c

/-- Model of Python `needle in haystack` on character lists. -/
def hasSub (needle : List Char) : List Char → Bool
  | [] => needle.isEmpty
  | x :: xs => needle.isPrefixOf (x :: xs) || hasSub needle xs

/-- Model of Python `needle in haystack` on strings. -/
def strContainsSub (hay needle : String) : Bool := hasSub needle.data hay.data

/-- Model of Python `str.lower` (ASCII view). -/
def lowerStr (s : String) : String := ⟨s.data.map Char.toLower⟩

/-- Model of Python `s.rstrip(c)`. -/
def rstripChar (c : Char) (s : String) : String :=
  ⟨(s.data.reverse.dropWhile (· = c)).reverse⟩

/-- Model of Python `str.isdigit` (ASCII digits). -/
def isdigitStr (s : String) : Bool := !s.data.isEmpty && s.data.all Char.isDigit

/-- The `\x7b` character, i.e. an opening curly brace. -/
def lbrace : Char := Char.ofNat 123

/-! ### URLs -/

/-- The parsed form of a URL, as decomposed by `urllib.parse.urlparse`. -/
structure Url where
  scheme : String
  netloc : String
  path : String
  query : String
  fragment : String
deriving DecidableEq

/-- Reassembling the URL string from its components. -/
def urlString (u : Url) : String :=
  u.scheme ++ "://" ++ u.netloc ++ u.path ++
    (if u.query = "" then "" else "?" ++ u.query) ++
    (if u.fragment = "" then "" else "#" ++ u.fragment)

/-! ### `core/template_detector.py` -/

/-- Hex digit of either case (the character class of the UUID regex,
which is applied with `re.I`). -/
def isHexChar (c : Char) : Bool :=
  c.isDigit || ('a' ≤ c && c ≤ 'f') || ('A' ≤ c && c ≤ 'F')

/-- `TemplateDetector._is_uuid`: the anchored 8-4-4-4-12 hex-group
pattern, case-insensitive.  A string matches exactly when splitting it on
`-` yields five dash-free hex groups of those lengths. -/
def _is_uuid (s : String) : Bool :=
  match splitChar '-' s.data with
  | [a, b, c, d, e] =>
    a.length == 8 && b.length == 4 && c.length == 4 && d.length == 4 &&
      e.length == 12 && (a ++ b ++ c ++ d ++ e).all isHexChar
  | _ => false

/-- The `^\d`-times-4 anchored match (`re.match(r'^\d\x7b4\x7d$', seg)`). -/
def isYearShape (s : String) : Bool :=
  s.data.length == 4 && s.data.all Char.isDigit

/-- The segment-classification chain inside
`TemplateDetector._extract_pattern` (one loop iteration). -/
def classifySegment (seg : String) : String :=
  if isdigitStr seg then "{id}"
  else if _is_uuid seg then "{uuid}"
  else if isYearShape seg then "{year}"
  else if seg.data.contains '-' || seg.data.contains '_' then "{slug}"
  else seg

/-- The non-empty pieces of a path split on `/` (the loop skips falsy
segments). -/
def pathSegments (path : String) : List String :=
  ((splitChar '/' path.data).filter (fun l => !l.isEmpty)).map (fun l => ⟨l⟩)

/-- The classified token sequence `_extract_pattern` builds for a URL. -/
def patternTokens (u : Url) : List String :=
  (pathSegments (rstripChar '/' u.path)).map classifySegment

/-- `TemplateDetector._extract_pattern`. -/
def _extract_pattern (u : Url) : String :=
  if rstripChar '/' u.path = "" then "/"
  else "/" ++ joinWith "/" (patternTokens u)

/-- Append `u` to the group keyed by `p`, creating the group at the end
when absent: the model of `defaultdict(list)` appends, with dict key
insertion order preserved. -/
def insertGroup (p : String) (u : Url) :
    List (String × List Url) → List (String × List Url)
  | [] => [(p, [u])]
  | (q, us) :: rest =>
    if q = p then (q, us ++ [u]) :: rest
    else (q, us) :: insertGroup p u rest

/-- The grouping loop of `TemplateDetector._group_by_pattern`. -/
def groupAll : List Url → List (String × List Url) → List (String × List Url)
  | [], acc => acc
  | u :: rest, acc => groupAll rest (insertGroup (_extract_pattern u) u acc)

/-- `TemplateDetector._group_by_pattern`: group, then
`if len(u) > 1 or p.count('/') <= 2`. -/
def _group_by_pattern (urls : List Url) : List (String × List Url) :=
  (groupAll urls []).filter
    (fun g => decide (g.2.length > 1 ∨ countChar '/' g.1 ≤ 2))

/-- The keyword table of `TemplateDetector._infer_type`, in the source's
insertion order. -/
def type_map : List (String × List String) :=
  [("product", ["product", "item"]),
   ("category", ["category", "collection"]),
   ("article", ["article", "post", "blog"]),
   ("profile", ["user", "profile"]),
   ("search", ["search"]),
   ("checkout", ["checkout", "cart"]),
   ("auth", ["login", "signup", "register"])]

/-- The `for page_type, keywords in type_map.items()` loop. -/
def findType (p_lower : String) : List (String × List String) → Option String
  | [] => none
  | (ty, kws) :: rest =>
    if kws.any (fun kw => strContainsSub p_lower kw) then some ty
    else findType p_lower rest

/-- `TemplateDetector._infer_type`. -/
def _infer_type (pattern : String) : String :=
  if pattern = "/" then "homepage"
  else
    match findType (lowerStr pattern) type_map with
    | some ty => ty
    | none => if strContainsSub pattern "{id}" then "detail_page" else "static_page"

/-- `models/schemas.py` `URLTemplate` (example URLs kept in parsed form). -/
structure URLTemplate where
  pattern : String
  example_urls : List Url
  template_type : String
  parameter_count : Nat
  total_matches : Nat
deriving DecidableEq

/-- The ordering induced by the sort key
`(t.parameter_count, -t.total_matches)` of `detect_templates`. -/
def templateLe (a b : URLTemplate) : Prop :=
  a.parameter_count < b.parameter_count ∨
    (a.parameter_count = b.parameter_count ∧ b.total_matches ≤ a.total_matches)

instance : DecidableRel templateLe := fun a b => by
  unfold templateLe; exact inferInstance

instance : IsTotal URLTemplate templateLe := by
  constructor; intro a b; unfold templateLe; omega

instance : IsTrans URLTemplate templateLe := by
  constructor; intro a b c; unfold templateLe; omega

/-- `TemplateDetector.detect_templates`: build one `URLTemplate` per
surviving group, then stable-sort by `(parameter_count, -total_matches)`
(Python `list.sort` is stable; `List.insertionSort` is its stable model). -/
def detect_templates (urls : List Url) : List URLTemplate :=
  ((_group_by_pattern urls).map (fun g =>
    { pattern := g.1
      example_urls := g.2.take 10
      template_type := _infer_type g.1
      parameter_count := countChar lbrace g.1
      total_matches := g.2.length : URLTemplate })).insertionSort templateLe

/-- `TemplateDetector.get_representative_url`. -/
def get_representative_url (t : URLTemplate) : Option Url :=
  t.example_urls.head?

/-! ### `core/functional_analyzer.py` -/

/-- The part of an analysis-result dictionary that the claims mention
(design-system and component payloads are carried opaquely by the parsed
blueprint and are irrelevant to every claim). -/
structure SpecData where
  template_name : String
  template_pattern : String
  layout_engine : String
  analyzed_url : String
  status : String
  error_message : Option String
deriving DecidableEq

/-- Outcome of one attempt of the retry loop — one `llm.ainvoke` followed
by `_extract_json` — either the parsed blueprint or the message of the
exception the attempt raised. -/
inductive LLMResult where
  | ok (d : SpecData)
  | err (msg : String)
deriving DecidableEq

/-- The rate-limit classifier of `_analyze_with_retry`:
`'429' in error_str or 'rate_limit' in error_str.lower()`. -/
def isRateLimitError (e : String) : Bool :=
  strContainsSub e "429" || strContainsSub (lowerStr e) "rate_limit"

/-- Whether an attempt outcome is an error. -/
def isErr : LLMResult → Bool
  | .ok _ => false
  | .err _ => true

/-- Whether an attempt outcome is an error classified as a rate limit. -/
def isErrRateLimit : LLMResult → Bool
  | .ok _ => false
  | .err e => isRateLimitError e

/-- The `for attempt in range(max_retries)` loop of
`FunctionalAnalyzer._analyze_with_retry`.  `fuel` is the number of loop
iterations still available (`max_retries - attempt`); the fuel-exhausted
case is the `raise Exception("Failed after all retries")` after the loop.
Returns the number of LLM calls made, the back-off waits slept (in
seconds, in order), and the final result (`err` = exception propagated to
the caller). -/
def retryLoop (llm : Nat → LLMResult) (max_retries : Nat) :
    Nat → Nat → Nat × List Nat × LLMResult
  | 0, attempt => (attempt, [], .err "Failed after all retries")
  | fuel + 1, attempt =>
    match llm attempt with
    | .ok d => (attempt + 1, [], .ok d)
    | .err e =>
      if isRateLimitError e then
        if attempt < max_retries - 1 then
          let r := retryLoop llm max_retries fuel (attempt + 1)
          (r.1, (attempt + 1) * 10 :: r.2.1, r.2.2)
        else (attempt + 1, [], .err e)
      else (attempt + 1, [], .err e)

/-- `FunctionalAnalyzer._analyze_with_retry` with its default
`max_retries = 3`. -/
def _analyze_with_retry (llm : Nat → LLMResult) : Nat × List Nat × LLMResult :=
  retryLoop llm 3 3 0

/-- `FunctionalAnalyzer._is_404_page` (only the title is inspected). -/
def _is_404_page (title url : String) : Bool :=
  ["404", "not found", "page not found", "error", "oops", "can\x27t find",
   "does not exist"].any (fun kw => strContainsSub (lowerStr title) kw)

/-- The page fields `analyze` reads: `page.url` and `await page.title()`. -/
structure PageState where
  url : String
  title : String

/-- The 404-skip result dictionary built in `analyze`. -/
def skipped404Spec (tp url : String) : SpecData :=
  { template_name := "404 Error Page (Skipped)"
    template_pattern := tp
    layout_engine := "N/A"
    analyzed_url := url
    status := "skipped"
    error_message := some "Page is a 404 error page" }

/-- The failure result dictionary built in `analyze`'s `except` branch. -/
def failedSpec (tp url e : String) : SpecData :=
  { template_name := "unknown"
    template_pattern := tp
    layout_engine := "unknown"
    analyzed_url := url
    status := "failed"
    error_message := some e }

/-- `FunctionalAnalyzer.analyze`.  `capture` stands for the awaited
screenshot capture, DOM extraction and screenshot write (its `error` case
is an exception raised there); `llm` drives `_analyze_with_retry`.
Besides the result dictionary, the model returns the number of LLM calls
made and the back-off waits, so the retry and 404 claims can be stated. -/
def analyze (pg : PageState) (template_pattern : String)
    (capture : Except String Unit) (llm : Nat → LLMResult) :
    SpecData × Nat × List Nat :=
  if _is_404_page pg.title pg.url then
    (skipped404Spec template_pattern pg.url, 0, [])
  else
    match capture with
    | .error e => (failedSpec template_pattern pg.url e, 0, [])
    | .ok _ =>
      match _analyze_with_retry llm with
      | (n, waits, .ok d) =>
        ({ d with template_pattern := template_pattern
                  analyzed_url := pg.url
                  status := "success" }, n, waits)
      | (n, waits, .err e) =>
        (failedSpec template_pattern pg.url e, n, waits)

/-! ### The scheduler phase of `agent.py` (`analyze_site`, phase 4) -/

/-- The failure dictionary built in `analyze_with_semaphore`'s `except`
branch in `agent.py`. -/
def agentFailedSpec (t : URLTemplate) (rep_url : Url) (e : String) : SpecData :=
  { template_name := t.template_type
    template_pattern := t.pattern
    layout_engine := "unknown"
    analyzed_url := urlString rep_url
    status := "failed"
    error_message := some e }

/-- `analyze_with_semaphore` in `agent.py`, one job (the semaphore bounds
timing only, never the value): `job t rep` stands for
`navigate(rep); sleep; analyzer.analyze(...); sleep`, which either
returns the result dictionary or raises.  A template without a
representative URL returns `None`. -/
def analyze_with_semaphore (job : URLTemplate → Url → Except String SpecData)
    (t : URLTemplate) : Option SpecData :=
  match get_representative_url t with
  | none => none
  | some rep_url =>
    match job t rep_url with
    | .ok spec => some spec
    | .error e => some (agentFailedSpec t rep_url e)

/-- The scheduler of `analyze_site`: `asyncio.gather` over
`analyze_with_semaphore` (input order preserved) followed by
`template_specs = [r for r in results if r is not None]`. -/
def run_scheduler (job : URLTemplate → Url → Except String SpecData)
    (templates : List URLTemplate) : List SpecData :=
  (templates.map (analyze_with_semaphore job)).filterMap id

/-! ### `core/sitemap_crawler.py` -/

/-- The crawl-phase normalization
`clean = scheme + "://" + netloc + path` — query and fragment dropped. -/
def cleanUrl (u : Url) : Url :=
  { scheme := u.scheme, netloc := u.netloc, path := u.path,
    query := "", fragment := "" }

/-- `SitemapCrawler._parse_sitemap_xml`: the `<loc>` values of the parsed
sitemap (given here already extracted — XML parsing is stdlib work) are
kept verbatim whenever their host equals the entry URL's host.  Set
semantics are modelled by first-occurrence deduplication. -/
def _parse_sitemap_xml (locs : List Url) (base_url : Url) : List Url :=
  (locs.filter (fun u => u.netloc == base_url.netloc)).dedup

/-- The link-harvesting body of `SitemapCrawler._crawl_links`: every
same-host anchor collected over the crawl, normalized via `cleanUrl`,
deduplicated into the `urls` set. -/
def _crawl_links (links : List Url) (base_url : Url) : List Url :=
  ((links.filter (fun u => u.netloc == base_url.netloc)).map cleanUrl).dedup

/-- `SitemapCrawler.discover_urls`: sitemap phase, crawl fallback when
the sitemap yield stays below 20, union of both phases, truncation to
`max_urls`. -/
def discover_urls (sitemapLocs crawledLinks : List Url) (base_url : Url)
    (max_urls : Nat) : List Url :=
  (if (_parse_sitemap_xml sitemapLocs base_url).length < 20 then
      (_parse_sitemap_xml sitemapLocs base_url ++
        _crawl_links crawledLinks base_url).dedup
    else _parse_sitemap_xml sitemapLocs base_url).take max_urls

/-! ### Spec-side definitions (for refinement-style claims) -/

/-- Spec reading of `templateType` inference (§4.2): homepage for the
bare-root pattern, otherwise the first matching keyword category in the
fixed priority list wins, else the id-token / static fallback. -/
def inferTypeSpec (pattern : String) : String :=
  if pattern = "/" then "homepage"
  else
    match type_map.find?
        (fun pr => pr.2.any (fun kw => strContainsSub (lowerStr pattern) kw)) with
    | some pr => pr.1
    | none => if strContainsSub pattern "{id}" then "detail_page" else "static_page"

/-- The `/`-separated segments of a pattern string (the spec's reading of
"at most 2 `/`-separated segments": non-empty pieces). -/
def segmentCount (p : String) : Nat := (pathSegments p).length

/-- The classified (non-literal) tokens a pattern may contain. -/
def classifiedTokens : List String := ["{id}", "{uuid}", "{year}", "{slug}"]

/-- Number of non-literal tokens among the segments of a pattern string. -/
def nonLiteralCount (p : String) : Nat :=
  ((pathSegments p).filter (fun t => decide (t ∈ classifiedTokens))).length

/-! ### Lemmas about the splitter and joiner -/

theorem splitChar_ne_nil (c : Char) (l : List Char) : splitChar c l ≠ [] := by
  cases l with
  | nil => simp [splitChar]
  | cons x xs =>
    rw [splitChar]
    by_cases hx : x = c
    · simp [hx]
    · rw [if_neg hx]
      cases splitChar c xs <;> simp

theorem splitChar_mem {c : Char} {l piece : List Char}
    (hm : piece ∈ splitChar c l) : c ∉ piece ∧ piece.Sublist l := by
  induction l generalizing piece with
  | nil =>
    simp only [splitChar, List.mem_singleton] at hm
    subst hm; simp
  | cons x xs ih =>
    rw [splitChar] at hm
    by_cases hx : x = c
    · rw [if_pos hx] at hm
      rcases List.mem_cons.mp hm with h | h
      · subst h; exact ⟨List.not_mem_nil c, List.nil_sublist _⟩
      · obtain ⟨h1, h2⟩ := ih h
        exact ⟨h1, h2.trans (List.sublist_cons_self x xs)⟩
    · rw [if_neg hx] at hm
      cases hsp : splitChar c xs with
      | nil => exact absurd hsp (splitChar_ne_nil c xs)
      | cons hd tl =>
        rw [hsp] at hm
        have hhd : c ∉ hd ∧ hd.Sublist xs := ih (hsp ▸ List.mem_cons_self hd tl)
        rcases List.mem_cons.mp hm with h | h
        · subst h
          refine ⟨?_, List.Sublist.cons₂ x hhd.2⟩
          intro hcm
          rcases List.mem_cons.mp hcm with h | h
          · exact hx h.symm
          · exact hhd.1 h
        · have := ih (hsp ▸ List.mem_cons_of_mem hd h)
          exact ⟨this.1, this.2.trans (List.sublist_cons_self x xs)⟩

theorem splitChar_of_not_mem {c : Char} {l : List Char} (h : c ∉ l) :
    splitChar c l = [l] := by
  induction l with
  | nil => rfl
  | cons x xs ih =>
    have hx : ¬x = c := fun he => h (he ▸ List.mem_cons_self x xs)
    have hxs : c ∉ xs := fun hc => h (List.mem_cons_of_mem x hc)
    rw [splitChar, if_neg hx, ih hxs]

theorem splitChar_sep_append {c : Char} {a : List Char} (b : List Char)
    (h : c ∉ a) : splitChar c (a ++ c :: b) = a :: splitChar c b := by
  induction a with
  | nil => simp [splitChar]
  | cons y ys ih =>
    have hy : ¬y = c := fun he => h (he ▸ List.mem_cons_self y ys)
    have hys : c ∉ ys := fun hc => h (List.mem_cons_of_mem y hc)
    rw [List.cons_append, splitChar, if_neg hy, ih hys]

theorem exists_piece_ne_nil {c x : Char} {l : List Char}
    (hx : x ∈ l) (hne : x ≠ c) : ∃ piece ∈ splitChar c l, piece ≠ [] := by
  induction l with
  | nil => cases hx
  | cons y ys ih =>
    rcases List.mem_cons.mp hx with h | h
    · subst h
      rw [splitChar, if_neg hne]
      cases hsp : splitChar c ys with
      | nil => exact absurd hsp (splitChar_ne_nil c ys)
      | cons hd tl => exact ⟨x :: hd, List.mem_cons_self _ _, by simp⟩
    · obtain ⟨piece, hpm, hpne⟩ := ih h
      rw [splitChar]
      by_cases hy : y = c
      · exact ⟨piece, by rw [if_pos hy]; exact List.mem_cons_of_mem _ hpm, hpne⟩
      · rw [if_neg hy]
        cases hsp : splitChar c ys with
        | nil => exact absurd hsp (splitChar_ne_nil c ys)
        | cons hd tl =>
          rw [hsp] at hpm
          rcases List.mem_cons.mp hpm with h' | h'
          · exact ⟨y :: hd, List.mem_cons_self _ _, by simp⟩
          · exact ⟨piece, List.mem_cons_of_mem _ h', hpne⟩

theorem joinWith_split {toks : List String} (hne : toks ≠ [])
    (hfree : ∀ t ∈ toks, '/' ∉ t.data) :
    splitChar '/' (joinWith "/" toks).data = toks.map String.data := by
  induction toks with
  | nil => exact absurd rfl hne
  | cons x xs ih =>
    cases xs with
    | nil =>
      simp only [joinWith, List.map]
      exact splitChar_of_not_mem (hfree x (List.mem_cons_self x []))
    | cons y t =>
      have hx : '/' ∉ x.data := hfree x (List.mem_cons_self _ _)
      have hrest : ∀ s ∈ y :: t, '/' ∉ s.data :=
        fun s hs => hfree s (List.mem_cons_of_mem x hs)
      have hdata : (joinWith "/" (x :: y :: t)).data =
          x.data ++ '/' :: (joinWith "/" (y :: t)).data := by
        show (x ++ "/" ++ joinWith "/" (y :: t)).data = _
        rw [String.data_append, String.data_append, List.append_assoc]
        rfl
      rw [hdata, splitChar_sep_append _ hx, ih (by simp) hrest]
      rfl

theorem joinWith_count_sep {toks : List String} (hne : toks ≠ [])
    (hfree : ∀ t ∈ toks, '/' ∉ t.data) :
    (joinWith "/" toks).data.count '/' = toks.length - 1 := by
  induction toks with
  | nil => exact absurd rfl hne
  | cons x xs ih =>
    cases xs with
    | nil =>
      simp only [joinWith, List.length]
      exact List.count_eq_zero.mpr (hfree x (List.mem_cons_self x []))
    | cons y t =>
      have hx : '/' ∉ x.data := hfree x (List.mem_cons_self _ _)
      have hrest : ∀ s ∈ y :: t, '/' ∉ s.data :=
        fun s hs => hfree s (List.mem_cons_of_mem x hs)
      have hdata : (joinWith "/" (x :: y :: t)).data =
          x.data ++ '/' :: (joinWith "/" (y :: t)).data := by
        show (x ++ "/" ++ joinWith "/" (y :: t)).data = _
        rw [String.data_append, String.data_append, List.append_assoc]
        rfl
      rw [hdata, List.count_append, List.count_eq_zero.mpr hx]
      simp [List.count_cons, List.length_cons, ih (by simp) hrest]

theorem joinWith_count_other {c : Char} (hc : c ≠ '/') :
    ∀ toks : List String,
      (joinWith "/" toks).data.count c = (toks.map (fun t => t.data.count c)).sum := by
  intro toks
  induction toks with
  | nil => rfl
  | cons x xs ih =>
    cases xs with
    | nil => simp [joinWith]
    | cons y t =>
      have hdata : (joinWith "/" (x :: y :: t)).data =
          x.data ++ '/' :: (joinWith "/" (y :: t)).data := by
        show (x ++ "/" ++ joinWith "/" (y :: t)).data = _
        rw [String.data_append, String.data_append, List.append_assoc]
        rfl
      rw [hdata, List.count_append, List.count_cons, ih]
      have hbeq : ('/' == c) = false := by simp [Ne.symm hc]
      simp [hbeq, List.map_cons, List.sum_cons]

/-! ### Lemmas about rstrip and segment classification -/

theorem str_eq_empty_iff {s : String} : s = "" ↔ s.data = [] := by
  constructor
  · intro h; rw [h]
  · intro h
    cases s with
    | mk data => cases h; rfl

theorem rstripChar_sublist (c : Char) (s : String) :
    (rstripChar c s).data.Sublist s.data := by
  have h : (s.data.reverse.dropWhile (· = c)).Sublist s.data.reverse :=
    List.dropWhile_sublist _
  have := h.reverse
  rwa [List.reverse_reverse] at this

theorem dropWhile_nil_or_exists (p : α → Bool) (l : List α) :
    l.dropWhile p = [] ∨ ∃ y ∈ l.dropWhile p, p y = false := by
  induction l with
  | nil => left; rfl
  | cons x xs ih =>
    by_cases hpx : p x = true
    · rw [List.dropWhile_cons_of_pos hpx]; exact ih
    · right
      rw [List.dropWhile_cons_of_neg hpx]
      exact ⟨x, List.mem_cons_self _ _, Bool.eq_false_iff.mpr hpx⟩

theorem rstripChar_exists_ne {c : Char} {s : String} (h : rstripChar c s ≠ "") :
    ∃ x ∈ (rstripChar c s).data, x ≠ c := by
  have hdata : (rstripChar c s).data = (s.data.reverse.dropWhile (· = c)).reverse := rfl
  rcases dropWhile_nil_or_exists (fun x => decide (x = c)) s.data.reverse with hn | ⟨y, hy, hpy⟩
  · exact absurd (str_eq_empty_iff.mpr (by rw [hdata, hn]; rfl)) h
  · refine ⟨y, ?_, by simpa using hpy⟩
    rw [hdata, List.mem_reverse]
    exact hy

theorem classifySegment_cases (seg : String) :
    classifySegment seg ∈ classifiedTokens ∨ classifySegment seg = seg := by
  unfold classifySegment
  split
  · left; simp [classifiedTokens]
  split
  · left; simp [classifiedTokens]
  split
  · left; simp [classifiedTokens]
  split
  · left; simp [classifiedTokens]
  · right; rfl

theorem classifiedToken_props {t : String} (h : t ∈ classifiedTokens) :
    t ≠ "" ∧ '/' ∉ t.data ∧ t.data.count lbrace = 1 ∧ lbrace ∈ t.data := by
  simp only [classifiedTokens, List.mem_cons, List.not_mem_nil, or_false] at h
  rcases h with h | h | h | h <;> subst h <;>
    exact ⟨by decide, by decide, by decide, by decide⟩

theorem pathSegments_mem {path : String} {seg : String}
    (h : seg ∈ pathSegments path) :
    seg ≠ "" ∧ '/' ∉ seg.data ∧ seg.data.Sublist path.data := by
  simp only [pathSegments, List.mem_map, List.mem_filter] at h
  obtain ⟨piece, ⟨hmem, hne⟩, heq⟩ := h
  obtain ⟨hfree, hsub⟩ := splitChar_mem hmem
  subst heq
  refine ⟨?_, hfree, hsub⟩
  intro he
  rw [str_eq_empty_iff] at he
  have he2 : piece = [] := he
  simp [he2] at hne

theorem patternTokens_props {u : Url} {t : String} (h : t ∈ patternTokens u) :
    t ≠ "" ∧ '/' ∉ t.data := by
  simp only [patternTokens, List.mem_map] at h
  obtain ⟨seg, hseg, heq⟩ := h
  obtain ⟨hsne, hsfree, _⟩ := pathSegments_mem hseg
  subst heq
  rcases classifySegment_cases seg with hc | hc
  · obtain ⟨h1, h2, _, _⟩ := classifiedToken_props hc
    exact ⟨h1, h2⟩
  · rw [hc]; exact ⟨hsne, hsfree⟩

theorem pathSegments_ne_nil {path : String} {x : Char}
    (hx : x ∈ path.data) (hne : x ≠ '/') : pathSegments path ≠ [] := by
  obtain ⟨piece, hpm, hpne⟩ := exists_piece_ne_nil hx hne
  have : (⟨piece⟩ : String) ∈ pathSegments path := by
    simp only [pathSegments, List.mem_map, List.mem_filter]
    exact ⟨piece, ⟨hpm, by simpa using hpne⟩, rfl⟩
  exact List.ne_nil_of_mem this

theorem extract_pattern_shape (u : Url) :
    _extract_pattern u = "/" ∨
      (patternTokens u ≠ [] ∧
        _extract_pattern u = "/" ++ joinWith "/" (patternTokens u)) := by
  unfold _extract_pattern
  by_cases h : rstripChar '/' u.path = ""
  · left; rw [if_pos h]
  · right
    refine ⟨?_, by rw [if_neg h]⟩
    obtain ⟨x, hx, hxne⟩ := rstripChar_exists_ne h
    have : pathSegments (rstripChar '/' u.path) ≠ [] := pathSegments_ne_nil hx hxne
    simpa [patternTokens] using this

/-- The segments of a well-formed pattern string are exactly its tokens. -/
theorem pathSegments_pattern {toks : List String} (hne : toks ≠ [])
    (hprops : ∀ t ∈ toks, t ≠ "" ∧ '/' ∉ t.data) :
    pathSegments ("/" ++ joinWith "/" toks) = toks := by
  have hdata : ("/" ++ joinWith "/" toks).data = '/' :: (joinWith "/" toks).data := by
    rw [String.data_append]; rfl
  have hsplit : splitChar '/' ("/" ++ joinWith "/" toks).data =
      [] :: toks.map String.data := by
    rw [hdata, splitChar, if_pos rfl, joinWith_split hne (fun t ht => (hprops t ht).2)]
  unfold pathSegments
  rw [hsplit]
  have hfilter : (([] : List Char) :: toks.map String.data).filter (fun l => !l.isEmpty) =
      toks.map String.data := by
    rw [List.filter_cons, if_neg (by decide)]
    apply List.filter_eq_self.mpr
    intro a ha
    obtain ⟨t, ht, heq⟩ := List.mem_map.mp ha
    subst heq
    have hd : t.data ≠ [] := fun hh => (hprops t ht).1 (str_eq_empty_iff.mpr hh)
    cases hdd : t.data with
    | nil => exact absurd hdd hd
    | cons a as => rfl
  rw [hfilter, List.map_map]
  exact List.map_id toks

theorem countChar_pattern_slash {toks : List String} (hne : toks ≠ [])
    (hprops : ∀ t ∈ toks, t ≠ "" ∧ '/' ∉ t.data) :
    countChar '/' ("/" ++ joinWith "/" toks) = toks.length := by
  have hdata : ("/" ++ joinWith "/" toks).data = '/' :: (joinWith "/" toks).data := by
    rw [String.data_append]; rfl
  unfold countChar
  rw [hdata, List.count_cons, joinWith_count_sep hne (fun t ht => (hprops t ht).2)]
  have hlen : toks.length ≠ 0 := fun h => hne (List.length_eq_zero.mp h)
  simp
  omega

/-! ### Lemmas about grouping -/

/-- Soundness of the groups in the accumulator: non-empty member lists
that are in-order sublists of the processed URLs, keyed by the members'
common pattern. -/
def GroupsOK (done : List Url) (acc : List (String × List Url)) : Prop :=
  ∀ q vs, (q, vs) ∈ acc →
    vs ≠ [] ∧ vs.Sublist done ∧ ∀ v ∈ vs, _extract_pattern v = q

theorem insertGroup_mem {p : String} {u : Url} {acc : List (String × List Url)}
    {q : String} {vs : List Url} (h : (q, vs) ∈ insertGroup p u acc) :
    (q, vs) ∈ acc ∨
      (q = p ∧ (vs = [u] ∨ ∃ us, (p, us) ∈ acc ∧ vs = us ++ [u])) := by
  induction acc with
  | nil =>
    simp only [insertGroup, List.mem_singleton, Prod.mk.injEq] at h
    exact Or.inr ⟨h.1, Or.inl h.2⟩
  | cons g rest ih =>
    obtain ⟨r, ws⟩ := g
    rw [insertGroup] at h
    by_cases hr : r = p
    · rw [if_pos hr] at h
      rcases List.mem_cons.mp h with h | h
      · obtain ⟨hq, hv⟩ := Prod.mk.injEq .. ▸ h
        subst hr
        exact Or.inr ⟨hq, Or.inr ⟨ws, List.mem_cons_self _ _, hv⟩⟩
      · exact Or.inl (List.mem_cons_of_mem _ h)
    · rw [if_neg hr] at h
      rcases List.mem_cons.mp h with h | h
      · exact Or.inl (h ▸ List.mem_cons_self _ _)
      · rcases ih h with h' | ⟨hq, hcase⟩
        · exact Or.inl (List.mem_cons_of_mem _ h')
        · refine Or.inr ⟨hq, ?_⟩
          rcases hcase with hv | ⟨us, hm, hv⟩
          · exact Or.inl hv
          · exact Or.inr ⟨us, List.mem_cons_of_mem _ hm, hv⟩

theorem insertGroup_ok {done : List Url} {acc : List (String × List Url)}
    (hok : GroupsOK done acc) (u : Url) :
    GroupsOK (done ++ [u]) (insertGroup (_extract_pattern u) u acc) := by
  intro q vs h
  rcases insertGroup_mem h with h | ⟨hq, hcase⟩
  · obtain ⟨h1, h2, h3⟩ := hok q vs h
    exact ⟨h1, h2.trans (List.sublist_append_left done [u]), h3⟩
  · rcases hcase with hv | ⟨us, hm, hv⟩
    · subst hv
      refine ⟨by simp, List.sublist_append_right done [u], ?_⟩
      intro v hv
      rw [List.mem_singleton.mp hv, hq]
    · obtain ⟨h1, h2, h3⟩ := hok _ us hm
      subst hv
      refine ⟨by simp, h2.append (List.Sublist.refl [u]), ?_⟩
      intro v hv
      rcases List.mem_append.mp hv with hv | hv
      · rw [h3 v hv, hq]
      · rw [List.mem_singleton.mp hv, hq]

theorem groupAll_ok :
    ∀ (urls : List Url) (acc : List (String × List Url)) (done : List Url),
      GroupsOK done acc → GroupsOK (done ++ urls) (groupAll urls acc) := by
  intro urls
  induction urls with
  | nil =>
    intro acc done h
    simpa [groupAll] using h
  | cons u rest ih =>
    intro acc done h
    rw [groupAll]
    have := ih (insertGroup (_extract_pattern u) u acc) (done ++ [u]) (insertGroup_ok h u)
    rwa [List.append_assoc, List.singleton_append] at this

theorem groupAll_sound {urls : List Url} {q : String} {vs : List Url}
    (h : (q, vs) ∈ groupAll urls []) :
    vs ≠ [] ∧ vs.Sublist urls ∧ ∀ v ∈ vs, _extract_pattern v = q := by
  have hok : GroupsOK ([] ++ urls) (groupAll urls []) :=
    groupAll_ok urls [] [] (fun q vs h => absurd h (List.not_mem_nil _))
  rw [List.nil_append] at hok
  exact hok q vs h

/-! ### Lemmas counting characters in extracted patterns -/

/-- On patterns produced by `_extract_pattern`, the code's slash-count
test agrees with the spec's segment-count reading. -/
theorem slash_vs_segments (u : Url) :
    countChar '/' (_extract_pattern u) ≤ 2 ↔ segmentCount (_extract_pattern u) ≤ 2 := by
  rcases extract_pattern_shape u with h | ⟨hne, h⟩
  · rw [h]; decide
  · have hprops : ∀ t ∈ patternTokens u, t ≠ "" ∧ '/' ∉ t.data :=
      fun t ht => patternTokens_props ht
    rw [h, countChar_pattern_slash hne hprops]
    unfold segmentCount
    rw [pathSegments_pattern hne hprops]

theorem sum_map_ite {α : Type _} (pred : α → Prop) [DecidablePred pred] (cnt : α → Nat) :
    ∀ toks : List α, (∀ t ∈ toks, cnt t = if pred t then 1 else 0) →
      (toks.map cnt).sum = (toks.filter (fun t => decide (pred t))).length := by
  intro toks
  induction toks with
  | nil => intro _; rfl
  | cons x xs ih =>
    intro h
    rw [List.map_cons, List.sum_cons, List.filter_cons,
      ih (fun t ht => h t (List.mem_cons_of_mem x ht)), h x (List.mem_cons_self x xs)]
    by_cases hp : pred x
    · rw [if_pos hp, if_pos (by simpa using hp)]
      simp [List.length_cons]
      omega
    · rw [if_neg hp, if_neg (by simpa using hp)]
      simp

/-- For a URL whose path contains no opening brace, the number of
brace characters in its pattern equals the number of classified
tokens among the pattern's segments. -/
theorem extract_pattern_braces {u : Url} (hp : lbrace ∉ u.path.data) :
    countChar lbrace (_extract_pattern u) = nonLiteralCount (_extract_pattern u) := by
  rcases extract_pattern_shape u with h | ⟨hne, h⟩
  · rw [h]; decide
  · have hprops : ∀ t ∈ patternTokens u, t ≠ "" ∧ '/' ∉ t.data :=
      fun t ht => patternTokens_props ht
    have htok : ∀ t ∈ patternTokens u,
        t.data.count lbrace = if t ∈ classifiedTokens then 1 else 0 := by
      intro t ht
      simp only [patternTokens, List.mem_map] at ht
      obtain ⟨seg, hseg, heq⟩ := ht
      rcases classifySegment_cases seg with hc | hc
      · rw [heq] at hc
        obtain ⟨_, _, hcount, _⟩ := classifiedToken_props hc
        rw [if_pos hc, hcount]
      · rw [heq] at hc
        have hteq : t = seg := hc.symm ▸ rfl
        have hsubl : seg.data.Sublist u.path.data :=
          (pathSegments_mem hseg).2.2.trans (rstripChar_sublist '/' u.path)
        have hnob : lbrace ∉ t.data := by
          rw [hteq]
          exact fun hm => hp (hsubl.subset hm)
        rw [if_neg ?hnc, List.count_eq_zero.mpr hnob]
        case hnc =>
          intro hcmem
          exact hnob (classifiedToken_props hcmem).2.2.2
    have hdata : ("/" ++ joinWith "/" (patternTokens u)).data =
        '/' :: (joinWith "/" (patternTokens u)).data := by
      rw [String.data_append]; rfl
    rw [h]
    unfold countChar nonLiteralCount
    rw [hdata, List.count_cons, joinWith_count_other (by decide) (patternTokens u),
      pathSegments_pattern hne hprops,
      sum_map_ite (fun t => t ∈ classifiedTokens) (fun t => t.data.count lbrace)
        (patternTokens u) htok]
    simp
    decide

/-! ### Claims -/

/-- C3: `_extract_pattern` classifies each non-empty path segment in the
source's priority order via `classifySegment`: every all-digits segment —
segments of exactly 4 digits included — produces the id token, and a
segment is classified as the year token only if the all-digits id rule
did not catch it first (for digit-only segments it always does, so the
year branch never fires on them). -/
theorem classify_digits_priority (seg : String) :
    (isdigitStr seg = true → classifySegment seg = "{id}") ∧
    (isYearShape seg = true → classifySegment seg = "{id}") ∧
    (classifySegment seg = "{year}" → isdigitStr seg = false) := by
  refine ⟨?_, ?_, ?_⟩
  · intro h
    unfold classifySegment
    rw [if_pos h]
  · intro h
    unfold isYearShape at h
    simp only [Bool.and_eq_true, beq_iff_eq] at h
    obtain ⟨h4, hall⟩ := h
    have hd : isdigitStr seg = true := by
      unfold isdigitStr
      cases hs : seg.data with
      | nil => rw [hs] at h4; simp at h4
      | cons a as => rw [hs] at hall; simp [hall]
    unfold classifySegment
    rw [if_pos hd]
  · intro h
    cases hd : isdigitStr seg with
    | false => rfl
    | true =>
      unfold classifySegment at h
      rw [if_pos hd] at h
      exact absurd h (by decide)

/-- Witness for `classify_digits_priority` at the 4-digit segment 2024. -/
theorem classify_digits_priority_witness :
    isdigitStr "2024" = true ∧ classifySegment "2024" = "{id}" :=
  ⟨by decide, (classify_digits_priority "2024").1 (by decide)⟩

theorem findType_eq_find? (p : String) :
    ∀ l : List (String × List String),
      findType p l =
        (l.find? (fun pr => pr.2.any (fun kw => strContainsSub p kw))).map Prod.fst := by
  intro l
  induction l with
  | nil => rfl
  | cons g rest ih =>
    obtain ⟨ty, kws⟩ := g
    cases hc : kws.any (fun kw => strContainsSub p kw) with
    | true =>
      rw [findType, if_pos hc, List.find?_cons_of_pos _ (by exact hc)]
      rfl
    | false =>
      rw [findType, if_neg (by simp [hc]), List.find?_cons_of_neg _ (by simp [hc]), ih]

/-- C7: `_infer_type` is the deterministic function of the pattern string
described by the spec: the bare-root pattern gives homepage, otherwise
the first matching keyword category wins case-insensitively in the fixed
priority order of `type_map`, otherwise a pattern holding the id token is
a detail page and any other pattern a static page (proved as a refinement
of `_infer_type` against the spec-side `inferTypeSpec`). -/
theorem infer_type_refines_spec (pattern : String) :
    _infer_type pattern = inferTypeSpec pattern := by
  by_cases hp : pattern = "/"
  · unfold _infer_type inferTypeSpec
    rw [if_pos hp, if_pos hp]
  · unfold _infer_type inferTypeSpec
    rw [if_neg hp, if_neg hp, findType_eq_find? (lowerStr pattern) type_map]
    cases type_map.find?
        (fun pr => pr.2.any (fun kw => strContainsSub (lowerStr pattern) kw)) with
    | none => rfl
    | some pr => rfl

/-- C6: sorting invariant of the clustered output: along the returned
sequence, every earlier template has a strictly smaller
`parameter_count`, or an equal one with at least as many
`total_matches` — so a template with smaller `parameter_count` always
precedes one with larger, and within equal `parameter_count` the order
is by non-increasing `total_matches`. -/
theorem detect_templates_sorted (urls : List Url) :
    (detect_templates urls).Pairwise (fun a b =>
      a.parameter_count < b.parameter_count ∨
        (a.parameter_count = b.parameter_count ∧
          b.total_matches ≤ a.total_matches)) := by
  unfold detect_templates
  exact List.sorted_insertionSort templateLe _

/-- C5: the singleton filter of `_group_by_pattern` keeps every group
with more than one URL, and keeps a single-URL group exactly when its
pattern has at most two `/`-separated segments. -/
theorem cluster_singleton_filter (urls : List Url) (p : String) (vs : List Url)
    (h : (p, vs) ∈ groupAll urls []) :
    (vs.length > 1 → (p, vs) ∈ _group_by_pattern urls) ∧
      (vs.length = 1 →
        ((p, vs) ∈ _group_by_pattern urls ↔ segmentCount p ≤ 2)) := by
  obtain ⟨hne, hsub, hpat⟩ := groupAll_sound h
  obtain ⟨v, hv⟩ := List.exists_mem_of_ne_nil vs hne
  have hp : p = _extract_pattern v := (hpat v hv).symm
  have hiff : countChar '/' p ≤ 2 ↔ segmentCount p ≤ 2 := by
    rw [hp]; exact slash_vs_segments v
  constructor
  · intro hlen
    unfold _group_by_pattern
    rw [List.mem_filter]
    exact ⟨h, by simp only [decide_eq_true_eq]; exact Or.inl hlen⟩
  · intro hlen
    unfold _group_by_pattern
    rw [List.mem_filter]
    constructor
    · rintro ⟨-, hpred⟩
      simp only [decide_eq_true_eq] at hpred
      rcases hpred with h1 | h2
      · omega
      · exact hiff.mp h2
    · intro hseg
      exact ⟨h, by simp only [decide_eq_true_eq]; exact Or.inr (hiff.mpr hseg)⟩

/-- Witness for `cluster_singleton_filter`: two URLs sharing the pattern
of `/p/` followed by the id token form a kept group. -/
theorem cluster_singleton_filter_witness :
    ("/p/{id}", [(⟨"https", "e.com", "/p/1", "", ""⟩ : Url),
        ⟨"https", "e.com", "/p/2", "", ""⟩]) ∈
      _group_by_pattern [⟨"https", "e.com", "/p/1", "", ""⟩,
        ⟨"https", "e.com", "/p/2", "", ""⟩] :=
  (cluster_singleton_filter _ _ _ (by decide)).1 (by decide)

/-- C9 counterexample: a URL whose path holds a literal opening brace
produces a kept template whose `parameter_count` — the count of opening
braces in the pattern, here 1 — differs from its number of classified
(non-literal) tokens, here 0. -/
theorem parameter_count_brace_literal :
    (detect_templates [⟨"https", "e.com", "/x\x7b", "", ""⟩]).map
        (fun t => (t.parameter_count, nonLiteralCount t.pattern)) = [(1, 0)] := by
  decide

/-- C9 (amended): for every template clustered from URLs whose paths are
free of opening braces, `parameter_count` equals the number of classified
(non-literal) tokens among the pattern's segments; `example_urls` has at
most 10 entries, no more than `total_matches`, and is an in-order
(discovery-order) sublist of the input URL list. -/
theorem template_invariants (urls : List Url)
    (hbrace : ∀ u ∈ urls, lbrace ∉ u.path.data) :
    ∀ t ∈ detect_templates urls,
      t.parameter_count = nonLiteralCount t.pattern ∧
      t.example_urls.length ≤ t.total_matches ∧
      t.example_urls.length ≤ 10 ∧
      t.example_urls.Sublist urls := by
  intro t ht
  unfold detect_templates at ht
  have ht' := (List.perm_insertionSort templateLe _).mem_iff.mp ht
  obtain ⟨g, hg, heq⟩ := List.mem_map.mp ht'
  obtain ⟨p, vs⟩ := g
  have hga : (p, vs) ∈ groupAll urls [] := (List.mem_filter.mp hg).1
  obtain ⟨hne, hsub, hpat⟩ := groupAll_sound hga
  obtain ⟨v, hv⟩ := List.exists_mem_of_ne_nil vs hne
  have hvurl : v ∈ urls := hsub.subset hv
  have hp : p = _extract_pattern v := (hpat v hv).symm
  subst heq
  refine ⟨?_, ?_, ?_, ?_⟩
  · show countChar lbrace p = nonLiteralCount p
    rw [hp]
    exact extract_pattern_braces (hbrace v hvurl)
  · show (vs.take 10).length ≤ vs.length
    rw [List.length_take]
    omega
  · exact List.length_take_le 10 vs
  · exact (List.take_sublist 10 vs).trans hsub

/-- Witness for `template_invariants` at a single brace-free URL, whose
template is the literal static pattern. -/
theorem template_invariants_witness :
    (⟨"/a", [⟨"https", "e.com", "/a", "", ""⟩], "static_page", 0, 1⟩ :
        URLTemplate).parameter_count =
      nonLiteralCount (⟨"/a", [⟨"https", "e.com", "/a", "", ""⟩],
        "static_page", 0, 1⟩ : URLTemplate).pattern :=
  (template_invariants [⟨"https", "e.com", "/a", "", ""⟩] (by decide) _ (by decide)).1

/-- C2: with `max_retries = 3`, a job whose LLM attempts all fail with
rate-limit-classified errors makes exactly 3 attempts, with back-off
waits of 10 then 20 seconds between them, and ends in a propagated error
that `analyze` records as a failed result; an attempt failing with an
error not classified as a rate limit is never retried — the loop stops
right after it, having slept only the earlier rate-limit waits. -/
theorem retry_rate_limit_policy (llm : Nat → LLMResult) :
    ((∀ k, k < 3 → isErrRateLimit (llm k) = true) →
      (_analyze_with_retry llm).1 = 3 ∧
      (_analyze_with_retry llm).2.1 = [10, 20] ∧
      isErr (_analyze_with_retry llm).2.2 = true ∧
      ∀ pg tp, _is_404_page pg.title pg.url = false →
        (analyze pg tp (.ok ()) llm).1.status = "failed" ∧
        (analyze pg tp (.ok ()) llm).2.1 = 3) ∧
    (∀ j e, j < 3 → (∀ k, k < j → isErrRateLimit (llm k) = true) →
      llm j = .err e → isRateLimitError e = false →
      _analyze_with_retry llm =
        (j + 1, (List.range j).map (fun k => (k + 1) * 10), .err e) ∧
      ∀ pg tp, _is_404_page pg.title pg.url = false →
        (analyze pg tp (.ok ()) llm).1.status = "failed") := by
  constructor
  · intro hall
    have h0 := hall 0 (by omega)
    have h1 := hall 1 (by omega)
    have h2 := hall 2 (by omega)
    rcases hm0 : llm 0 with d0 | e0
    · rw [hm0] at h0; exact absurd h0 (by simp [isErrRateLimit])
    rcases hm1 : llm 1 with d1 | e1
    · rw [hm1] at h1; exact absurd h1 (by simp [isErrRateLimit])
    rcases hm2 : llm 2 with d2 | e2
    · rw [hm2] at h2; exact absurd h2 (by simp [isErrRateLimit])
    rw [hm0] at h0
    rw [hm1] at h1
    rw [hm2] at h2
    simp only [isErrRateLimit] at h0 h1 h2
    have hres : _analyze_with_retry llm = (3, [10, 20], .err e2) := by
      unfold _analyze_with_retry
      simp [retryLoop, hm0, hm1, hm2, h0, h1, h2]
    refine ⟨by rw [hres], by rw [hres], by rw [hres]; rfl, ?_⟩
    intro pg tp h404
    have hana : analyze pg tp (.ok ()) llm =
        (failedSpec tp pg.url e2, 3, [10, 20]) := by
      unfold analyze
      rw [if_neg (by simp [h404]), hres]
    rw [hana]
    exact ⟨rfl, rfl⟩
  · intro j e hj hk hje hrl
    interval_cases j
    · have hres : _analyze_with_retry llm =
          (0 + 1, (List.range 0).map (fun k => (k + 1) * 10), .err e) := by
        unfold _analyze_with_retry
        simp [retryLoop, hje, hrl]
      refine ⟨hres, ?_⟩
      intro pg tp h404
      unfold analyze
      rw [if_neg (by simp [h404]), hres]
      rfl
    · have hk0 := hk 0 (by omega)
      rcases hm0 : llm 0 with d0 | e0
      · rw [hm0] at hk0; exact absurd hk0 (by simp [isErrRateLimit])
      rw [hm0] at hk0
      simp only [isErrRateLimit] at hk0
      have hres : _analyze_with_retry llm =
          (1 + 1, (List.range 1).map (fun k => (k + 1) * 10), .err e) := by
        unfold _analyze_with_retry
        simp [retryLoop, hm0, hk0, hje, hrl, List.range_succ]
      refine ⟨hres, ?_⟩
      intro pg tp h404
      unfold analyze
      rw [if_neg (by simp [h404]), hres]
      rfl
    · have hk0 := hk 0 (by omega)
      have hk1 := hk 1 (by omega)
      rcases hm0 : llm 0 with d0 | e0
      · rw [hm0] at hk0; exact absurd hk0 (by simp [isErrRateLimit])
      rcases hm1 : llm 1 with d1 | e1
      · rw [hm1] at hk1; exact absurd hk1 (by simp [isErrRateLimit])
      rw [hm0] at hk0
      rw [hm1] at hk1
      simp only [isErrRateLimit] at hk0 hk1
      have hres : _analyze_with_retry llm =
          (2 + 1, (List.range 2).map (fun k => (k + 1) * 10), .err e) := by
        unfold _analyze_with_retry
        simp [retryLoop, hm0, hm1, hk0, hk1, hje, hrl, List.range_succ]
      refine ⟨hres, ?_⟩
      intro pg tp h404
      unfold analyze
      rw [if_neg (by simp [h404]), hres]
      rfl

/-- Witness for `retry_rate_limit_policy`: an LLM that always fails with
an HTTP 429 message is called exactly 3 times with waits 10 and 20. -/
theorem retry_rate_limit_policy_witness :
    (∀ k, k < 3 →
      isErrRateLimit ((fun _ => LLMResult.err "HTTP 429") k) = true) ∧
    (_analyze_with_retry (fun _ => LLMResult.err "HTTP 429")).1 = 3 ∧
    (_analyze_with_retry (fun _ => LLMResult.err "HTTP 429")).2.1 = [10, 20] :=
  ⟨by decide,
    ((retry_rate_limit_policy (fun _ => LLMResult.err "HTTP 429")).1 (by decide)).1,
    ((retry_rate_limit_policy (fun _ => LLMResult.err "HTTP 429")).1 (by decide)).2.1⟩

/-- C8 counterexample: when the 404 rule fires, the outcome is skipped
with zero LLM calls, but its reason string is the code's
`Page is a 404 error page`, not the claimed literal `404 page`. -/
theorem skip404_reason_string :
    (analyze ⟨"https://e.com/x", "404 Not Found"⟩ "/x" (.ok ())
        (fun _ => .err "z")).1.status = "skipped" ∧
    (analyze ⟨"https://e.com/x", "404 Not Found"⟩ "/x" (.ok ())
        (fun _ => .err "z")).2.1 = 0 ∧
    (analyze ⟨"https://e.com/x", "404 Not Found"⟩ "/x" (.ok ())
        (fun _ => .err "z")).1.error_message ≠ some "404 page" :=
  ⟨by decide, by decide, by decide⟩

/-- C8 (amended): whenever `_is_404_page` fires on the representative
page's title, `analyze` returns the skipped result — status `skipped`,
reason `Page is a 404 error page` — and makes zero LLM calls. -/
theorem skip404_behavior (pg : PageState) (tp : String)
    (capture : Except String Unit) (llm : Nat → LLMResult)
    (h : _is_404_page pg.title pg.url = true) :
    analyze pg tp capture llm = (skipped404Spec tp pg.url, 0, []) ∧
    (analyze pg tp capture llm).1.status = "skipped" ∧
    (analyze pg tp capture llm).1.error_message =
      some "Page is a 404 error page" ∧
    (analyze pg tp capture llm).2.1 = 0 := by
  have ha : analyze pg tp capture llm = (skipped404Spec tp pg.url, 0, []) := by
    unfold analyze
    rw [if_pos h]
  exact ⟨ha, by rw [ha]; rfl, by rw [ha]; rfl, by rw [ha]⟩

/-- Witness for `skip404_behavior` at a concrete 404-titled page. -/
theorem skip404_behavior_witness :
    _is_404_page "Oops! Page Not Found" "https://e.com/y" = true ∧
    (analyze ⟨"https://e.com/y", "Oops! Page Not Found"⟩ "/y" (.error "boom")
        (fun _ => .err "z")).1.status = "skipped" :=
  ⟨by decide, (skip404_behavior ⟨"https://e.com/y", "Oops! Page Not Found"⟩
    "/y" (.error "boom") (fun _ => .err "z") (by decide)).2.1⟩

/-- C10: `analyze` is total at the job interface: every result carries a
status of success, skipped or failed, and an exception raised during page
capture or during the (retry-exhausted or non-retryable) analysis is
converted into a failed result carrying that error message rather than
propagated. -/
theorem analyze_total_status (pg : PageState) (tp : String)
    (capture : Except String Unit) (llm : Nat → LLMResult) :
    ((analyze pg tp capture llm).1.status = "success" ∨
     (analyze pg tp capture llm).1.status = "skipped" ∨
     (analyze pg tp capture llm).1.status = "failed") ∧
    (∀ e, _is_404_page pg.title pg.url = false → capture = .error e →
      (analyze pg tp capture llm).1.status = "failed" ∧
      (analyze pg tp capture llm).1.error_message = some e) ∧
    (∀ n w e, _is_404_page pg.title pg.url = false → capture = .ok () →
      _analyze_with_retry llm = (n, w, .err e) →
      (analyze pg tp capture llm).1.status = "failed" ∧
      (analyze pg tp capture llm).1.error_message = some e) := by
  refine ⟨?_, ?_, ?_⟩
  · unfold analyze
    by_cases h404 : _is_404_page pg.title pg.url = true
    · rw [if_pos h404]
      exact Or.inr (Or.inl rfl)
    · rw [if_neg h404]
      cases capture with
      | error e => exact Or.inr (Or.inr rfl)
      | ok u =>
        rcases hr : _analyze_with_retry llm with ⟨n, w, r⟩
        cases r with
        | ok d => exact Or.inl rfl
        | err e => exact Or.inr (Or.inr rfl)
  · intro e h404 hcap
    unfold analyze
    rw [if_neg (by simp [h404]), hcap]
    exact ⟨rfl, rfl⟩
  · intro n w e h404 hcap hr
    unfold analyze
    rw [if_neg (by simp [h404]), hcap, hr]
    exact ⟨rfl, rfl⟩

/-- Witness for `analyze_total_status`: a capture exception at a non-404
page becomes a failed result carrying the message. -/
theorem analyze_total_status_witness :
    _is_404_page "Welcome" "https://e.com/z" = false ∧
    (analyze ⟨"https://e.com/z", "Welcome"⟩ "/z" (.error "nav crash")
        (fun _ => .err "x")).1.status = "failed" ∧
    (analyze ⟨"https://e.com/z", "Welcome"⟩ "/z" (.error "nav crash")
        (fun _ => .err "x")).1.error_message = some "nav crash" :=
  ⟨by decide,
    ((analyze_total_status ⟨"https://e.com/z", "Welcome"⟩ "/z"
        (.error "nav crash") (fun _ => .err "x")).2.1 "nav crash"
      (by decide) rfl).1,
    ((analyze_total_status ⟨"https://e.com/z", "Welcome"⟩ "/z"
        (.error "nav crash") (fun _ => .err "x")).2.1 "nav crash"
      (by decide) rfl).2⟩

/-- C1 counterexample: one input template with no example URLs yields an
empty outcome list — no outcome at all, rather than one
`Skipped("no representative url")` outcome per input template. -/
theorem scheduler_drops_template_without_representative :
    (run_scheduler (fun _ _ => .error "x")
        [⟨"/", [], "homepage", 0, 0⟩]).length ≠
      [(⟨"/", [], "homepage", 0, 0⟩ : URLTemplate)].length := by
  decide

theorem analyze_with_semaphore_isSome
    (job : URLTemplate → Url → Except String SpecData) (t : URLTemplate) :
    (analyze_with_semaphore job t).isSome = !t.example_urls.isEmpty := by
  unfold analyze_with_semaphore get_representative_url
  cases t.example_urls with
  | nil => rfl
  | cons u us => cases hj : job t u <;> simp [hj]

/-- C1 (amended): the scheduler returns exactly one outcome per input
template that has a representative URL, regardless of how many jobs
fail (failing jobs still produce a failed outcome); templates without a
representative URL are dropped silently (their `None` result is filtered
out), so the outcome count equals the number of templates with non-empty
`example_urls`, not the full input count. -/
theorem scheduler_outcome_count
    (job : URLTemplate → Url → Except String SpecData)
    (templates : List URLTemplate) :
    (run_scheduler job templates).length =
      (templates.filter (fun t => !t.example_urls.isEmpty)).length := by
  induction templates with
  | nil => rfl
  | cons t rest ih =>
    have hs := analyze_with_semaphore_isSome job t
    unfold run_scheduler at ih ⊢
    rw [List.map_cons, List.filterMap_cons, List.filter_cons]
    cases ho : analyze_with_semaphore job t with
    | none =>
      rw [ho] at hs
      simp only [Option.isSome_none] at hs
      simp [← hs]
      simpa using ih
    | some d =>
      rw [ho] at hs
      simp only [Option.isSome_some] at hs
      simp [← hs]
      simpa using ih

/-- C4 counterexample: a sitemap `<loc>` URL carrying a query string is
returned by discovery unchanged — its query is not stripped. -/
theorem discover_sitemap_url_keeps_query :
    (⟨"https", "e.com", "/a", "x=1", ""⟩ : Url) ∈
        discover_urls [⟨"https", "e.com", "/a", "x=1", ""⟩] []
          ⟨"https", "e.com", "/", "", ""⟩ 500 ∧
      (⟨"https", "e.com", "/a", "x=1", ""⟩ : Url).query ≠ "" :=
  ⟨by decide, by decide⟩

/-- C4 (amended): every URL returned by `discover_urls` either has empty
query and fragment — which holds for all crawl-phase URLs, normalized by
`cleanUrl` — or was taken verbatim from a sitemap `<loc>` entry, which is
only host-filtered and may keep its query and fragment. -/
theorem discover_normalization (sitemapLocs crawledLinks : List Url)
    (base_url : Url) (max_urls : Nat) (u : Url)
    (h : u ∈ discover_urls sitemapLocs crawledLinks base_url max_urls) :
    (u.query = "" ∧ u.fragment = "") ∨ u ∈ sitemapLocs := by
  unfold discover_urls at h
  have h' := List.mem_of_mem_take h
  by_cases hlen : (_parse_sitemap_xml sitemapLocs base_url).length < 20
  · rw [if_pos hlen] at h'
    rw [List.mem_dedup] at h'
    rcases List.mem_append.mp h' with hs | hc
    · right
      unfold _parse_sitemap_xml at hs
      rw [List.mem_dedup] at hs
      exact (List.mem_filter.mp hs).1
    · left
      unfold _crawl_links at hc
      rw [List.mem_dedup] at hc
      obtain ⟨v, _, heq⟩ := List.mem_map.mp hc
      rw [← heq]
      exact ⟨rfl, rfl⟩
  · rw [if_neg hlen] at h'
    right
    unfold _parse_sitemap_xml at h'
    rw [List.mem_dedup] at h'
    exact (List.mem_filter.mp h').1

/-- Witness for `discover_normalization`: a crawled link with query and
fragment is returned in cleaned form. -/
theorem discover_normalization_witness :
    ((⟨"https", "e.com", "/b", "", ""⟩ : Url).query = "" ∧
        (⟨"https", "e.com", "/b", "", ""⟩ : Url).fragment = "") ∨
      (⟨"https", "e.com", "/b", "", ""⟩ : Url) ∈ ([] : List Url) :=
  discover_normalization [] [⟨"https", "e.com", "/b", "q=2", "f"⟩]
    ⟨"https", "e.com", "/", "", ""⟩ 500 ⟨"https", "e.com", "/b", "", ""⟩
    (by decide)

end UXA
